import Mathlib

/-!
Shallow embedding of `rtt-file-logger` (`src/main.rs`): the binary symbol
scanner `get_rtt_symbol`, the RTT attach fallback in `main`, the sink
construction from the configuration, and the polling capture loop.
External effects (probe reads, file writes, the ELF parser, the signal
handler) are modelled as environment-supplied inputs; machine integers are
naturals with explicit `% 2 ^ 32` where the code truncates.
-/

namespace RttFileLogger

/-- A byte value (`u8`) is modelled as a natural number. -/
abbrev Byte := Nat

/-- One channel entry of the TOML configuration
(`struct Channel { up, name, path }`). -/
structure Channel where
  up : Nat
  name : String
  path : String
deriving Repr, DecidableEq

/-- The sink record `struct ChannelSink { channel, name, file, working }`.
The exclusively owned `UpChannel` is represented by its identity `chanId`;
the open `fs::File` is represented by the path it was created at together
with the bytes written to it so far. -/
structure ChannelSink where
  chanId : Nat
  name : String
  path : String
  file : List Byte
  working : Bool
deriving Repr, DecidableEq

/-! ## Binary symbol scanner (`get_rtt_symbol`, lines 76-92) -/

/-- One symbol-table entry as consulted by the scanner: the string-table
offset of its name (`sym.st_name`) and its value (`sym.st_value`). -/
structure Sym where
  st_name : Nat
  st_value : Nat
deriving Repr, DecidableEq

/-- The part of a parsed ELF image `get_rtt_symbol` consults: the symbol
table `syms` (in table order) and the string table lookup
`strtab.get_at`. -/
structure Elf where
  syms : List Sym
  strtab : Nat → Option String

/-- The fixed marker name the scanner compares against:
the RTT control-block symbol `_SEGGER_RTT`. -/
def markerName : String := "_SEGGER_RTT"

/-- The `for sym in &binary.syms` search: return the value of the first
symbol whose name resolves in the string table and equals the marker name
exactly. -/
def findSym (strtab : Nat → Option String) : List Sym → Option Nat
  | [] => none
  | s :: rest =>
    match strtab s.st_name with
    | some name => if name = markerName then some s.st_value else findSym strtab rest
    | none => findSym strtab rest

/-- `get_rtt_symbol`: read the file to the end (`readResult = none` models a
read error), parse it as ELF (`parse buffer = none` models a goblin parse
failure), then scan the symbol table; every failure path returns `none`. -/
def get_rtt_symbol (readResult : Option (List Byte))
    (parse : List Byte → Option Elf) : Option Nat :=
  match readResult with
  | some buffer =>
    match parse buffer with
    | some binary => findSym binary.strtab binary.syms
    | none => none
  | none => none

/-! ## Attachment strategy (`main`, lines 113-132) -/

/-- How the attach `match` resolves: keep the direct attachment, retry
pinned to an exact address (`ScanRegion::Exact`), or abort the process
(`panic!` / a propagated error). -/
inductive AttachAction where
  | useDirect
  | retryPinned (addr : Nat)
  | fatal
deriving Repr, DecidableEq

/-- The `match (rtt, args.binary.as_ref())` of `main`: a successful direct
attach is used as is; otherwise, when a binary path was supplied, the file
is opened (`openOk`) and scanned, and a found symbol address is pinned as
`ScanRegion::Exact(addr as u32)` — truncated to 32 bits; every other path
aborts before any configuration is read. -/
def attachPlan (directOk binarySupplied openOk : Bool)
    (symbolAddr : Option Nat) : AttachAction :=
  if directOk then .useDirect
  else if binarySupplied then
    if openOk then
      match symbolAddr with
      | some addr => .retryPinned (addr % 2 ^ 32)
      | none => .fatal
    else .fatal
  else .fatal

/-! ## Sink registry (`main`, lines 143-156) -/

/-- The pool of available up channels of the attached RTT session
(`rtt.up_channels()`): an association list from channel index to the
identity of the channel handle, one entry per existing up channel. -/
abbrev ChannelPool := List (Nat × Nat)

/-- `rtt.up_channels().take(i)`: remove the channel registered at index `i`
from the pool and return it, or `none` when no such index remains. -/
def takeChannel : ChannelPool → Nat → Option (Nat × ChannelPool)
  | [], _ => none
  | (k, c) :: rest, i =>
    if k = i then some (c, rest)
    else
      match takeChannel rest i with
      | some (c', rest') => some (c', (k, c) :: rest')
      | none => none

/-- The ways startup aborts: `.expect("Channel missing")`,
`.expect("Couldn't create output file")`, the attach `panic!`s, and a
configuration read/parse error propagated by `?`. -/
inductive StartupError where
  | channelMissing
  | fileCreateFailed
  | attachFailed
  | configFailed
deriving Repr, DecidableEq

/-- The sink-construction `map` over `config.rtt_config.channels`: for each
entry in list order, take the upstream channel at its index and create
(truncate) the output file; a missing channel or a failed creation panics,
aborting startup. The second component lists the output files already
created (they exist on disk even when a later entry aborts startup). -/
def buildSinks (canCreate : String → Bool) :
    ChannelPool → List Channel → Except StartupError (List ChannelSink) × List String
  | _, [] => (.ok [], [])
  | pool, c :: cs =>
    match takeChannel pool c.up with
    | none => (.error .channelMissing, [])
    | some (ch, pool') =>
      if canCreate c.path then
        let rest := buildSinks canCreate pool' cs
        (rest.1.map (fun sinks => ⟨ch, c.name, c.path, [], true⟩ :: sinks),
         c.path :: rest.2)
      else (.error .fileCreateFailed, [])

/-- Startup of `main` up to the capture loop: resolve the RTT attachment
(`attachPlan`, with `pinnedOk` the outcome of the pinned
`Rtt::attach_region` retry), then read the configuration (`configOk`), then
build the sinks. Returns the startup outcome and the output files created. -/
def runStartup (directOk binarySupplied openOk : Bool) (symbolAddr : Option Nat)
    (pinnedOk : Nat → Bool) (configOk : Bool) (canCreate : String → Bool)
    (pool : ChannelPool) (channels : List Channel) :
    Except StartupError (List ChannelSink) × List String :=
  match attachPlan directOk binarySupplied openOk symbolAddr with
  | .useDirect =>
    if configOk then buildSinks canCreate pool channels
    else (.error .configFailed, [])
  | .retryPinned addr =>
    if pinnedOk addr then
      if configOk then buildSinks canCreate pool channels
      else (.error .configFailed, [])
    else (.error .attachFailed, [])
  | .fatal => (.error .attachFailed, [])

/-! ## Capture loop (`main`, lines 160-192) -/

/-- Outcome of `sink.channel.read(&mut core, &mut buffer[..])`: `ok bs`
deposits the bytes `bs` at the front of the shared transfer buffer and
returns their count; `err` is a channel read error. -/
inductive ReadResult where
  | ok (bs : List Byte)
  | err
deriving Repr, DecidableEq

/-- Outcome of `sink.file.write_all(&buffer[..bytes])`: success persists all
bytes; `err k` is a write error after only the first `k` attempted bytes
were persisted (`write_all` gives no guarantee on error). -/
inductive WriteOutcome where
  | ok
  | err (k : Nat)
deriving Repr, DecidableEq

/-- The environment's answers for one poll of one sink: the channel read
outcome and, if an append is attempted, its outcome. -/
structure PollInput where
  read : ReadResult
  write : WriteOutcome
deriving Repr, DecidableEq

/-- The diagnostics the loop body prints: the write-failure line naming the
sink, and the channel-error line. -/
inductive LogEvent where
  | writeFail (name : String)
  | readFail
deriving Repr, DecidableEq

/-- The default poll input used to pad a too-short input list: a successful
zero-byte read. -/
def idlePoll : PollInput := ⟨.ok [], .ok⟩

/-- One iteration of the inner `for sink in &mut sinks` body: skip a
non-working sink; otherwise read from its channel into the shared buffer
and, when bytes arrived, append `&buffer[..bytes]` to its file, disabling
the sink (and printing the failure) when the append errors. Returns the
updated sink, the updated shared buffer, and the diagnostics printed. -/
def pollSink (s : ChannelSink) (buf : List Byte) (i : PollInput) :
    ChannelSink × List Byte × List LogEvent :=
  if s.working then
    match i.read with
    | .ok bs =>
      let buf' := bs ++ buf.drop bs.length
      if bs.length > 0 then
        match i.write with
        | .ok => ({ s with file := s.file ++ buf'.take bs.length }, buf', [])
        | .err k =>
          ({ s with file := s.file ++ (buf'.take bs.length).take k, working := false },
           buf', [.writeFail s.name])
      else (s, buf', [])
    | .err => (s, buf, [.readFail])
  else (s, buf, [])

/-- The effect of one poll on the sink alone (the buffer does not influence
it: the appended slice `&buffer[..bytes]` is exactly the bytes the read
just deposited). -/
def sinkStep (s : ChannelSink) (i : PollInput) : ChannelSink :=
  if s.working then
    match i.read with
    | .ok bs =>
      if bs.length > 0 then
        match i.write with
        | .ok => { s with file := s.file ++ bs }
        | .err k => { s with file := s.file ++ bs.take k, working := false }
      else s
    | .err => s
  else s

/-- One full pass of the `for` loop over all sinks, threading the shared
transfer buffer left to right and collecting the printed diagnostics. A
missing input is padded with an idle (zero-byte) poll. -/
def runPass : List ChannelSink → List PollInput → List Byte →
    List ChannelSink × List Byte × List LogEvent
  | [], _, buf => ([], buf, [])
  | s :: ss, ins, buf =>
    let r := pollSink s buf (ins.headD idlePoll)
    let rest := runPass ss ins.tail r.2.1
    (r.1 :: rest.1, rest.2.1, r.2.2 ++ rest.2.2)

/-- One scheduled iteration of the outer `while` loop: the value the pass
start reads from the shared cancellation flag (`running.load`), and the
per-sink poll outcomes the environment supplies for that pass. -/
structure PassInput where
  flag : Bool
  ins : List PollInput
deriving Repr, DecidableEq

/-- The `while running.load(Ordering::SeqCst)` capture loop: check the flag
once per pass; while it reads `true`, run one full pass over all sinks and
repeat. The schedule lists the successive flag loads and poll outcomes; an
exhausted schedule ends the run. -/
def runLoop : List PassInput → List ChannelSink → List Byte →
    List ChannelSink × List Byte × List LogEvent
  | [], sinks, buf => (sinks, buf, [])
  | p :: ps, sinks, buf =>
    if p.flag then
      let r := runPass sinks p.ins buf
      let rest := runLoop ps r.1 r.2.1
      (rest.1, rest.2.1, r.2.2 ++ rest.2.2)
    else (sinks, buf, [])

/-- The number of full passes the loop executes under a schedule. -/
def passesRun : List PassInput → Nat
  | [] => 0
  | p :: ps => if p.flag then passesRun ps + 1 else 0

/-- The fold of one sink's own poll inputs, pass after pass. -/
def sinkTrace (s : ChannelSink) (col : List PollInput) : ChannelSink :=
  col.foldl sinkStep s

/-- The poll inputs delivered to the sink at position `j` over the passes
the loop actually executes (the longest prefix of the schedule whose flag
loads read `true`). -/
def column (j : Nat) (t : List PassInput) : List PollInput :=
  (t.takeWhile (·.flag)).map (fun p => p.ins.getD j idlePoll)

/-- The bytes a poll's read returned (`bs` for `Ok(bs)`, nothing for an
error). -/
def chunkOf (i : PollInput) : List Byte :=
  match i.read with
  | .ok bs => bs
  | .err => []

/-! ## Structural lemmas about the capture loop -/

/-- The sink a poll returns is `sinkStep` of the sink and its input — in
particular it does not depend on the shared buffer's prior content. -/
lemma pollSink_fst (s : ChannelSink) (buf : List Byte) (i : PollInput) :
    (pollSink s buf i).1 = sinkStep s i := by
  unfold pollSink sinkStep
  cases hw : s.working
  · simp
  · cases hr : i.read with
    | ok bs =>
      by_cases hl : bs.length > 0
      · cases hwr : i.write <;> simp [hl, hwr, List.take_left]
      · simp [hl]
    | err => simp

/-- The diagnostics a poll prints depend only on the sink and its input. -/
lemma pollSink_log (s : ChannelSink) (buf : List Byte) (i : PollInput) :
    (pollSink s buf i).2.2 =
      if s.working then
        match i.read, i.write with
        | .ok bs, .err _ => if bs.length > 0 then [.writeFail s.name] else []
        | .ok _, .ok => []
        | .err, _ => [.readFail]
      else [] := by
  unfold pollSink
  cases hw : s.working
  · simp
  · cases hr : i.read with
    | ok bs =>
      by_cases hl : bs.length > 0
      · cases hwr : i.write <;> simp [hl, hwr]
      · cases hwr : i.write <;> simp [hl, hwr]
    | err => simp

/-- Position `j` of a pass's result is `sinkStep` of the sink at `j` and the
`j`-th poll input, independently of the buffer and of every other sink. -/
lemma runPass_get? (sinks : List ChannelSink) (ins : List PollInput)
    (buf : List Byte) (j : Nat) :
    (runPass sinks ins buf).1[j]? =
      sinks[j]?.map (fun s => sinkStep s (ins[j]?.getD idlePoll)) := by
  induction sinks generalizing ins buf j with
  | nil => simp [runPass]
  | cons s ss ih =>
    cases ins with
    | nil =>
      cases j with
      | zero => simp [runPass, pollSink_fst]
      | succ j => simp [runPass, ih]
    | cons i is =>
      cases j with
      | zero => simp [runPass, pollSink_fst]
      | succ j => simp [runPass, ih]

/-- A pass preserves the number of sinks. -/
lemma runPass_length (sinks : List ChannelSink) (ins : List PollInput)
    (buf : List Byte) :
    (runPass sinks ins buf).1.length = sinks.length := by
  induction sinks generalizing ins buf with
  | nil => simp [runPass]
  | cons s ss ih => simp [runPass, ih]

/-- Position `j` of the loop's final sink list is the fold of `sinkStep`
over that sink's own poll inputs: each sink's final state is a function of
its own channel's reads and its own write outcomes only. -/
lemma runLoop_get? (t : List PassInput) (sinks : List ChannelSink)
    (buf : List Byte) (j : Nat) :
    (runLoop t sinks buf).1[j]? =
      sinks[j]?.map (fun s => sinkTrace s (column j t)) := by
  induction t generalizing sinks buf with
  | nil => simp [runLoop, column, sinkTrace]
  | cons p ps ih =>
    cases hf : p.flag
    · simp [runLoop, hf, column, sinkTrace]
    · have hcol : column j (p :: ps) =
          p.ins.getD j idlePoll :: column j ps := by
        simp [column, List.takeWhile, hf]
      simp only [runLoop, hf, if_true]
      rw [ih, runPass_get?, hcol]
      cases hj : sinks[j]? <;> simp [sinkTrace, List.getD]

/-- The loop preserves the number of sinks. -/
lemma runLoop_length (t : List PassInput) (sinks : List ChannelSink)
    (buf : List Byte) :
    (runLoop t sinks buf).1.length = sinks.length := by
  induction t generalizing sinks buf with
  | nil => simp [runLoop]
  | cons p ps ih =>
    cases hf : p.flag
    · simp [runLoop, hf]
    · simp [runLoop, hf, ih, runPass_length]

/-- The final sink list does not depend on the initial content of the
shared transfer buffer. -/
lemma runLoop_buf_irrel (t : List PassInput) (sinks : List ChannelSink)
    (buf₁ buf₂ : List Byte) :
    (runLoop t sinks buf₁).1 = (runLoop t sinks buf₂).1 := by
  apply List.ext_getElem?
  intro j
  rw [runLoop_get?, runLoop_get?]

/-! ## Per-sink step lemmas -/

/-- A sink with `working = false` is skipped: the poll leaves the sink, the
buffer and the diagnostics untouched. -/
lemma pollSink_not_working (s : ChannelSink) (buf : List Byte) (i : PollInput)
    (h : s.working = false) : pollSink s buf i = (s, buf, []) := by
  unfold pollSink
  simp [h]

/-- A skipped (non-working) sink is left exactly as it is. -/
lemma sinkStep_not_working (s : ChannelSink) (i : PollInput)
    (h : s.working = false) : sinkStep s i = s := by
  unfold sinkStep
  simp [h]

/-- A poll never turns `working` back on. -/
lemma sinkStep_working_mono (s : ChannelSink) (i : PollInput)
    (h : (sinkStep s i).working = true) : s.working = true := by
  cases hw : s.working with
  | false =>
    rw [sinkStep_not_working s i hw] at h
    rw [hw] at h
    exact h
  | true => rfl

/-- A working sink whose append succeeds gains exactly the bytes its own
read returned, and stays working. -/
lemma sinkStep_write_ok (s : ChannelSink) (i : PollInput)
    (hw : s.working = true) (hwr : i.write = .ok) :
    sinkStep s i = { s with file := s.file ++ chunkOf i } := by
  obtain ⟨cid, nm, pth, fl, wk⟩ := s
  have hw' : wk = true := hw
  subst hw'
  unfold sinkStep chunkOf
  cases hr : i.read with
  | ok bs =>
    by_cases hl : bs.length > 0
    · simp [hwr, hl]
    · have hbs : bs = [] := by
        simpa using Nat.eq_zero_of_not_pos hl
      simp [hbs]
  | err => simp

/-- Fold of `sinkStep_write_ok`: over any input column whose appends all
succeed, a working sink's file grows by exactly the concatenation of the
byte sequences its reads returned, in order, and nothing else changes. -/
lemma sinkTrace_write_ok (col : List PollInput) (s : ChannelSink)
    (hw : s.working = true) (hok : ∀ i ∈ col, i.write = .ok) :
    sinkTrace s col = { s with file := s.file ++ (col.map chunkOf).flatten } := by
  induction col generalizing s with
  | nil => simp [sinkTrace]
  | cons i col ih =>
    have hstep := sinkStep_write_ok s i hw (hok i (by simp))
    have hrest :
        sinkTrace { s with file := s.file ++ chunkOf i } col =
          { s with file := (s.file ++ chunkOf i) ++ (col.map chunkOf).flatten } := by
      exact ih { s with file := s.file ++ chunkOf i } hw
        (fun x hx => hok x (by simp [hx]))
    show sinkTrace (sinkStep s i) col = _
    rw [hstep, hrest]
    simp [List.append_assoc]

/-! ## Loop cancellation lemmas -/

/-- Passes whose flag load reads `true` execute and the loop continues;
the first `false` load stops the loop, and nothing scheduled after it is
ever looked at. -/
lemma runLoop_stop (ps qs : List PassInput) (p : PassInput)
    (sinks : List ChannelSink) (buf : List Byte)
    (hps : ∀ q ∈ ps, q.flag = true) (hp : p.flag = false) :
    runLoop (ps ++ p :: qs) sinks buf = runLoop ps sinks buf := by
  induction ps generalizing sinks buf with
  | nil => simp [runLoop, hp]
  | cons q ps ih =>
    have hq : q.flag = true := hps q (by simp)
    have hps' : ∀ x ∈ ps, x.flag = true := fun x hx => hps x (by simp [hx])
    simp only [List.cons_append, runLoop, hq, if_true]
    simp only [List.append_eq]
    rw [ih _ _ hps']

/-- Under the same schedule shape, the number of executed passes is exactly
the number of `true` flag loads before the first `false` one. -/
lemma passesRun_stop (ps qs : List PassInput) (p : PassInput)
    (hps : ∀ q ∈ ps, q.flag = true) (hp : p.flag = false) :
    passesRun (ps ++ p :: qs) = ps.length := by
  induction ps with
  | nil => simp [passesRun, hp]
  | cons q ps ih =>
    have hq : q.flag = true := hps q (by simp)
    have hps' : ∀ x ∈ ps, x.flag = true := fun x hx => hps x (by simp [hx])
    show passesRun (q :: (ps ++ p :: qs)) = ps.length + 1
    rw [show passesRun (q :: (ps ++ p :: qs)) =
          if q.flag then passesRun (ps ++ p :: qs) + 1 else 0 from rfl]
    rw [hq, if_pos rfl, ih hps']

/-! ## Symbol scanner lemmas -/

/-- When exactly one symbol's name resolves to the marker, the table scan
returns that symbol's value. -/
lemma findSym_single (strtab : Nat → Option String) (syms : List Sym) (s : Sym)
    (h : syms.filter (fun y => decide (strtab y.st_name = some markerName)) = [s]) :
    findSym strtab syms = some s.st_value := by
  induction syms with
  | nil => simp at h
  | cons y ys ih =>
    unfold findSym
    cases hn : strtab y.st_name with
    | none =>
      rw [List.filter_cons_of_neg (by simp [hn])] at h
      exact ih h
    | some name =>
      by_cases hm : name = markerName
      · rw [List.filter_cons_of_pos (by simp [hn, hm])] at h
        have hy : y = s := by
          simpa using congrArg (fun l => l.headD y) h
        simp [hm, hy]
      · have hne : ¬ strtab y.st_name = some markerName := by
          simp [hn, hm]
        rw [List.filter_cons_of_neg (by simpa using hne)] at h
        simp only [hm, if_false]
        exact ih h

/-- When no symbol's name resolves to the marker, the table scan returns
nothing. -/
lemma findSym_not_found (strtab : Nat → Option String) (syms : List Sym)
    (h : ∀ y ∈ syms, ¬ strtab y.st_name = some markerName) :
    findSym strtab syms = none := by
  induction syms with
  | nil => rfl
  | cons y ys ih =>
    unfold findSym
    cases hn : strtab y.st_name with
    | none => exact ih (fun x hx => h x (by simp [hx]))
    | some name =>
      have hm : ¬ name = markerName := by
        intro hc
        exact h y (by simp) (by rw [hn, hc])
      simp only [hm, if_false]
      exact ih (fun x hx => h x (by simp [hx]))

/-! ## Sink registry lemmas -/

/-- Taking a channel fails exactly when no pool entry carries the index. -/
lemma takeChannel_eq_none (pool : ChannelPool) (i : Nat) :
    takeChannel pool i = none ↔ i ∉ pool.map Prod.fst := by
  induction pool with
  | nil => simp [takeChannel]
  | cons kc rest ih =>
    obtain ⟨k, c⟩ := kc
    by_cases hk : k = i
    · subst hk
      simp [takeChannel]
    · cases h' : takeChannel rest i with
      | none =>
        have hni : i ∉ rest.map Prod.fst := ih.mp h'
        simp [takeChannel, hk, h', hni, Ne.symm hk]
      | some p =>
        have hi : i ∈ rest.map Prod.fst := by
          by_contra hc
          rw [ih.mpr hc] at h'
          exact Option.noConfusion h'
        simp [takeChannel, hk, h', hi]

/-- Taking a channel removes exactly its index from the pool's key list. -/
lemma takeChannel_keys (pool pool' : ChannelPool) (i c : Nat)
    (h : takeChannel pool i = some (c, pool')) :
    pool'.map Prod.fst = (pool.map Prod.fst).erase i := by
  induction pool generalizing pool' with
  | nil => exact Option.noConfusion h
  | cons kc rest ih =>
    obtain ⟨k, ch⟩ := kc
    by_cases hk : k = i
    · subst hk
      simp only [takeChannel, if_true] at h
      obtain ⟨h1, h2⟩ : ch = c ∧ rest = pool' := by simpa using h
      subst h2
      rw [List.map_cons, List.erase_cons_head]
    · cases h' : takeChannel rest i with
      | none => simp [takeChannel, hk, h'] at h
      | some p =>
        obtain ⟨c', rest'⟩ := p
        obtain ⟨h1, h2⟩ : c' = c ∧ (k, ch) :: rest' = pool' := by
          simpa [takeChannel, hk, h'] using h
        subst h1
        subst h2
        rw [List.map_cons, List.map_cons,
          List.erase_cons_tail (by simp [hk]), ih rest' h']

/-- Successful registry construction: when the pool's indices are distinct,
the configured indices are distinct and all available, and every output
file can be created, the construction yields one sink per entry, in order,
with the entry's name and path and `working = true`. -/
lemma buildSinks_ok (canCreate : String → Bool) (pool : ChannelPool)
    (channels : List Channel)
    (hpool : (pool.map Prod.fst).Nodup)
    (hup : (channels.map Channel.up).Nodup)
    (hmem : ∀ c ∈ channels, c.up ∈ pool.map Prod.fst)
    (hcr : ∀ c ∈ channels, canCreate c.path = true) :
    ∃ sinks, (buildSinks canCreate pool channels).1 = .ok sinks ∧
      sinks.map (fun s => (s.name, s.path, s.working)) =
        channels.map (fun c => (c.name, c.path, true)) := by
  induction channels generalizing pool with
  | nil => exact ⟨[], rfl, rfl⟩
  | cons c cs ih =>
    have hc : c.up ∈ pool.map Prod.fst := hmem c (by simp)
    obtain ⟨ch, pool', htk⟩ :
        ∃ ch pool', takeChannel pool c.up = some (ch, pool') := by
      cases h' : takeChannel pool c.up with
      | none => exact absurd ((takeChannel_eq_none pool c.up).mp h') (by simp [hc])
      | some p =>
        obtain ⟨a, b⟩ := p
        exact ⟨a, b, rfl⟩
    have hkeys := takeChannel_keys pool pool' c.up ch htk
    have hpool' : (pool'.map Prod.fst).Nodup := by
      rw [hkeys]; exact hpool.erase _
    have hup' := hup
    rw [List.map_cons, List.nodup_cons] at hup'
    have hmem' : ∀ x ∈ cs, x.up ∈ pool'.map Prod.fst := by
      intro x hx
      have hne : x.up ≠ c.up := by
        intro he
        exact hup'.1 (he ▸ List.mem_map_of_mem Channel.up hx)
      rw [hkeys]
      exact (List.mem_erase_of_ne hne).mpr (hmem x (by simp [hx]))
    obtain ⟨sinks', hok, hmapeq⟩ :=
      ih pool' hpool' hup'.2 hmem' (fun x hx => hcr x (by simp [hx]))
    refine ⟨⟨ch, c.name, c.path, [], true⟩ :: sinks', ?_, ?_⟩
    · simp only [buildSinks, htk, hcr c (by simp), if_true]
      rw [hok]
      rfl
    · simp [hmapeq]

/-- Conversely, a successful registry construction certifies that the
configured indices were distinct, all available in the pool, and every
output file creatable. -/
lemma buildSinks_ok_inv (canCreate : String → Bool) (pool : ChannelPool)
    (channels : List Channel) (sinks : List ChannelSink)
    (hpool : (pool.map Prod.fst).Nodup)
    (h : (buildSinks canCreate pool channels).1 = .ok sinks) :
    (channels.map Channel.up).Nodup ∧
      (∀ c ∈ channels, c.up ∈ pool.map Prod.fst) ∧
      (∀ c ∈ channels, canCreate c.path = true) := by
  induction channels generalizing pool sinks with
  | nil => simp
  | cons c cs ih =>
    cases htk : takeChannel pool c.up with
    | none =>
      simp only [buildSinks, htk] at h
      exact Except.noConfusion h
    | some p =>
      obtain ⟨ch, pool'⟩ := p
      by_cases hcr : canCreate c.path = true
      · simp only [buildSinks, htk, hcr, if_true] at h
        cases hrest : (buildSinks canCreate pool' cs).1 with
        | error e =>
          rw [hrest] at h
          exact Except.noConfusion h
        | ok sinks' =>
          have hkeys := takeChannel_keys pool pool' c.up ch htk
          have hpool' : (pool'.map Prod.fst).Nodup := by
            rw [hkeys]; exact hpool.erase _
          obtain ⟨h1, h2, h3⟩ := ih pool' sinks' hpool' hrest
          have hcmem : c.up ∈ pool.map Prod.fst := by
            by_contra hc
            rw [(takeChannel_eq_none pool c.up).mpr hc] at htk
            exact Option.noConfusion htk
          refine ⟨?_, ?_, ?_⟩
          · rw [List.map_cons, List.nodup_cons]
            refine ⟨?_, h1⟩
            intro hcin
            obtain ⟨x, hx, hxe⟩ := List.mem_map.mp hcin
            have : c.up ∈ (pool.map Prod.fst).erase c.up := by
              rw [← hkeys]
              exact hxe ▸ h2 x hx
            exact hpool.not_mem_erase this
          · intro x hx
            rcases List.mem_cons.mp hx with he | hm
            · exact he ▸ hcmem
            · exact List.erase_subset _ _ (hkeys ▸ h2 x hm)
          · intro x hx
            rcases List.mem_cons.mp hx with he | hm
            · exact he ▸ hcr
            · exact h3 x hm
      · simp only [buildSinks, htk, hcr, if_false] at h
        exact Except.noConfusion h

/-! ## Claims -/

/-- C1: Sink Registry startup is all-or-nothing. When the session's pool
has distinct indices, every configured upstream index is distinct and
available, and every output file can be created, the registry yields
exactly one sink per `ChannelConfig` entry, in list order, preserving the
entry's name and output path and with `working = true`. When any
configured index is unavailable (duplicated or absent from the pool) or
any output-file creation fails, construction aborts with an error and
exposes no sink list at all (no partial `CaptureSession`). -/
theorem c1_registry_all_or_nothing :
    (∀ (canCreate : String → Bool) (pool : ChannelPool) (channels : List Channel),
      (pool.map Prod.fst).Nodup →
      (channels.map Channel.up).Nodup →
      (∀ c ∈ channels, c.up ∈ pool.map Prod.fst) →
      (∀ c ∈ channels, canCreate c.path = true) →
      ∃ sinks, (buildSinks canCreate pool channels).1 = .ok sinks ∧
        sinks.map (fun s => (s.name, s.path, s.working)) =
          channels.map (fun c => (c.name, c.path, true))) ∧
    (∀ (canCreate : String → Bool) (pool : ChannelPool) (channels : List Channel),
      (pool.map Prod.fst).Nodup →
      (¬ (channels.map Channel.up).Nodup ∨
        (∃ c ∈ channels, c.up ∉ pool.map Prod.fst) ∨
        (∃ c ∈ channels, canCreate c.path = false)) →
      ∃ e, (buildSinks canCreate pool channels).1 = .error e) := by
  constructor
  · exact fun canCreate pool channels => buildSinks_ok canCreate pool channels
  · intro canCreate pool channels hpool hbad
    cases h : (buildSinks canCreate pool channels).1 with
    | error e => exact ⟨e, rfl⟩
    | ok sinks =>
      obtain ⟨h1, h2, h3⟩ := buildSinks_ok_inv canCreate pool channels sinks hpool h
      rcases hbad with hb | ⟨c, hc, hb⟩ | ⟨c, hc, hb⟩
      · exact absurd h1 hb
      · exact absurd (h2 c hc) hb
      · rw [h3 c hc] at hb
        exact Bool.noConfusion hb

/-- Witness for C1 at a two-channel configuration with all indices
available and all files creatable. -/
theorem c1_registry_all_or_nothing_witness :
    ((([(0, 100), (1, 101)] : ChannelPool).map Prod.fst).Nodup ∧
      (([⟨0, "console", "out/console.log"⟩,
         ⟨1, "events", "out/events.log"⟩] : List Channel).map Channel.up).Nodup) ∧
    (∃ sinks,
      (buildSinks (fun _ => true) [(0, 100), (1, 101)]
        [⟨0, "console", "out/console.log"⟩, ⟨1, "events", "out/events.log"⟩]).1 =
          .ok sinks ∧
      sinks.map (fun s => (s.name, s.path, s.working)) =
        ([⟨0, "console", "out/console.log"⟩,
          ⟨1, "events", "out/events.log"⟩] : List Channel).map
            (fun c => (c.name, c.path, true))) :=
  ⟨⟨by decide, by decide⟩,
    c1_registry_all_or_nothing.1 (fun _ => true) [(0, 100), (1, 101)]
      [⟨0, "console", "out/console.log"⟩, ⟨1, "events", "out/events.log"⟩]
      (by decide) (by decide) (by decide) (by decide)⟩

/-- C2: Per-sink failure isolation is one-way and local. A working sink
whose append errors has `working` set to `false` and the failure reported;
a non-working sink is skipped untouched on every later poll; `working`
never goes from `false` back to `true`; and each sink's state after the
whole loop is a function of its own poll inputs only, so another sink's
write failure changes nothing about it and it keeps being polled and
appended to on subsequent cycles. -/
theorem c2_write_failure_isolation :
    (∀ (s : ChannelSink) (buf bs : List Byte) (k : Nat),
      s.working = true → bs ≠ [] →
      (pollSink s buf ⟨.ok bs, .err k⟩).1.working = false ∧
        (pollSink s buf ⟨.ok bs, .err k⟩).2.2 = [.writeFail s.name]) ∧
    (∀ (s : ChannelSink) (buf : List Byte) (i : PollInput),
      s.working = false → pollSink s buf i = (s, buf, [])) ∧
    (∀ (s : ChannelSink) (i : PollInput),
      (sinkStep s i).working = true → s.working = true) ∧
    (∀ (t : List PassInput) (sinks : List ChannelSink) (buf : List Byte)
      (j : Nat) (s : ChannelSink),
      sinks[j]? = some s →
      (runLoop t sinks buf).1[j]? = some (sinkTrace s (column j t))) := by
  refine ⟨?_, pollSink_not_working, sinkStep_working_mono, ?_⟩
  · intro s buf bs k hw hbs
    have hl : bs.length > 0 := List.length_pos.mpr hbs
    unfold pollSink
    simp [hw, hl]
  · intro t sinks buf j s hj
    rw [runLoop_get?, hj]
    rfl

/-- Witness for C2 at a concrete failing append: the sink is disabled and
the failure reported. -/
theorem c2_write_failure_isolation_witness :
    ((⟨0, "console", "out/console.log", [], true⟩ : ChannelSink).working = true ∧
      ([104] : List Byte) ≠ []) ∧
    (pollSink ⟨0, "console", "out/console.log", [], true⟩ [] ⟨.ok [104], .err 0⟩).1.working
        = false :=
  ⟨⟨rfl, by decide⟩,
    (c2_write_failure_isolation.1 ⟨0, "console", "out/console.log", [], true⟩
      [] [104] 0 rfl (by decide)).1⟩

/-- C3: the Binary Symbol Scanner is a total, pure lookup. For a parseable
image whose table holds exactly one symbol whose name resolves to the
marker, it returns that symbol's value; for a parseable image with no such
symbol it returns `none`; and for unreadable content or content the ELF
parser rejects it returns `none`. -/
theorem c3_scanner_pure_lookup :
    (∀ (buf : List Byte) (parse : List Byte → Option Elf) (e : Elf) (s : Sym),
      parse buf = some e →
      e.syms.filter (fun y => decide (e.strtab y.st_name = some markerName)) = [s] →
      get_rtt_symbol (some buf) parse = some s.st_value) ∧
    (∀ (buf : List Byte) (parse : List Byte → Option Elf) (e : Elf),
      parse buf = some e →
      (∀ y ∈ e.syms, ¬ e.strtab y.st_name = some markerName) →
      get_rtt_symbol (some buf) parse = none) ∧
    (∀ parse, get_rtt_symbol none parse = none) ∧
    (∀ (buf : List Byte) (parse : List Byte → Option Elf),
      parse buf = none → get_rtt_symbol (some buf) parse = none) := by
  refine ⟨?_, ?_, fun _ => rfl, ?_⟩
  · intro buf parse e s hp hf
    simp only [get_rtt_symbol, hp]
    exact findSym_single e.strtab e.syms s hf
  · intro buf parse e hp hn
    simp only [get_rtt_symbol, hp]
    exact findSym_not_found e.strtab e.syms hn
  · intro buf parse hp
    simp only [get_rtt_symbol, hp]

/-- Witness for C3 at a one-symbol image whose only symbol is the marker at
address `0x2000_0000`. -/
theorem c3_scanner_pure_lookup_witness :
    (List.filter
        (fun y => decide
          ((fun n => if n = 0 then some markerName else none) y.st_name =
            some markerName))
        [(⟨0, 536870912⟩ : Sym)] = [(⟨0, 536870912⟩ : Sym)]) ∧
    get_rtt_symbol (some [0])
        (fun _ => some ⟨[⟨0, 536870912⟩],
          fun n => if n = 0 then some markerName else none⟩) =
      some 536870912 :=
  ⟨by decide,
    c3_scanner_pure_lookup.1 [0]
      (fun _ => some ⟨[⟨0, 536870912⟩],
        fun n => if n = 0 then some markerName else none⟩)
      ⟨[⟨0, 536870912⟩], fun n => if n = 0 then some markerName else none⟩
      ⟨0, 536870912⟩ rfl (by decide)⟩

/-- C4 as stated is false at a 64-bit address: the code pins the retry to
`ScanRegion::Exact(addr as u32)`, so for the discovered address
`2 ^ 32` the requested pin is `0`, not the address itself. -/
theorem c4_counterexample :
    attachPlan false true true (some 4294967296) = .retryPinned 0 ∧
      (0 : Nat) ≠ 4294967296 :=
  ⟨by decide, by decide⟩

/-- C4 (amended): whenever the direct RTT attach fails, a firmware image
was supplied and readable, and the scanner finds the marker symbol at
address `A`, the retry attach is requested pinned to `A % 2 ^ 32` (the
address truncated to 32 bits, the `addr as u32` cast); in particular it is
pinned to exactly `A` whenever `A < 2 ^ 32`. No region-scanning action
exists on this path — the only possible outcome is the exact pin. -/
theorem c4_fallback_pins_truncated_address :
    ∀ addr : Nat,
      attachPlan false true true (some addr) = .retryPinned (addr % 2 ^ 32) ∧
      (addr < 2 ^ 32 → attachPlan false true true (some addr) = .retryPinned addr) := by
  intro addr
  constructor
  · rfl
  · intro h
    simp [attachPlan, Nat.mod_eq_of_lt h]
    omega

/-- Witness for C4 (amended) at the spec's scenario address `0x2000_0000`,
which fits in 32 bits and is pinned exactly. -/
theorem c4_fallback_pins_truncated_address_witness :
    536870912 < 2 ^ 32 ∧
      attachPlan false true true (some 536870912) = .retryPinned 536870912 :=
  ⟨by decide, (c4_fallback_pins_truncated_address 536870912).2 (by decide)⟩

/-- C5: bounded cancellation latency. The loop reads the cancellation flag
once per full pass (the structure of `runLoop`): along any schedule whose
first `false` flag load comes after `ps.length` passes with `true` loads,
the loop executes exactly those `ps.length` full passes and returns,
looking at nothing scheduled later — so once the flag has been set, the
only work remaining is the pass already in flight, at most one full pass. -/
theorem c5_bounded_cancellation :
    ∀ (ps qs : List PassInput) (p : PassInput) (sinks : List ChannelSink)
      (buf : List Byte),
      (∀ q ∈ ps, q.flag = true) → p.flag = false →
      passesRun (ps ++ p :: qs) = ps.length ∧
        runLoop (ps ++ p :: qs) sinks buf = runLoop ps sinks buf :=
  fun ps qs p sinks buf hps hp =>
    ⟨passesRun_stop ps qs p hps hp, runLoop_stop ps qs p sinks buf hps hp⟩

/-- Witness for C5 at a schedule with one executed pass, then a `false`
load, then a further scheduled pass that is never reached. -/
theorem c5_bounded_cancellation_witness :
    ((∀ q ∈ [(⟨true, []⟩ : PassInput)], q.flag = true) ∧
      (⟨false, []⟩ : PassInput).flag = false) ∧
    (passesRun ([⟨true, []⟩] ++ ⟨false, []⟩ :: [⟨true, []⟩]) = 1 ∧
      runLoop ([⟨true, []⟩] ++ ⟨false, []⟩ :: [⟨true, []⟩]) [] [] =
        runLoop [⟨true, []⟩] [] []) :=
  ⟨⟨by decide, rfl⟩,
    c5_bounded_cancellation [⟨true, []⟩] [⟨true, []⟩] ⟨false, []⟩ [] []
      (by decide) rfl⟩

/-- C6: read/write failure asymmetry. A read error on a working sink is
reported (the channel-error line) but leaves the sink itself — `working`
flag, file content, name — untouched, appends nothing in that cycle, and
the pass carries on to the remaining sinks exactly as it would have; only
write errors, never read errors, disable a sink (the latter shown by the
unchanged `working = true`). -/
theorem c6_read_error_nonfatal :
    ∀ (s : ChannelSink) (buf : List Byte) (w : WriteOutcome)
      (ss : List ChannelSink) (ins : List PollInput),
      s.working = true →
      pollSink s buf ⟨.err, w⟩ = (s, buf, [.readFail]) ∧
        runPass (s :: ss) (⟨.err, w⟩ :: ins) buf =
          (s :: (runPass ss ins buf).1, (runPass ss ins buf).2.1,
            .readFail :: (runPass ss ins buf).2.2) := by
  intro s buf w ss ins hw
  have h1 : pollSink s buf ⟨.err, w⟩ = (s, buf, [.readFail]) := by
    unfold pollSink
    simp [hw]
  refine ⟨h1, ?_⟩
  simp [runPass, h1]

/-- Witness for C6 at a concrete read error: the sink survives unchanged
and the error is reported. -/
theorem c6_read_error_nonfatal_witness :
    ((⟨0, "console", "out/console.log", [], true⟩ : ChannelSink).working = true) ∧
    pollSink ⟨0, "console", "out/console.log", [], true⟩ [] ⟨.err, .ok⟩ =
      (⟨0, "console", "out/console.log", [], true⟩, [], [.readFail]) :=
  ⟨rfl,
    (c6_read_error_nonfatal ⟨0, "console", "out/console.log", [], true⟩ [] .ok
      [] [] rfl).1⟩

/-- C7 as stated is false when an append fails: in a run whose single read
returned the byte sequence `[104]` but whose append errored before
persisting anything, the file content afterwards is `[]`, not the
concatenation `[104]` of the byte sequences returned by the reads. -/
theorem c7_counterexample :
    ((runLoop [⟨true, [⟨.ok [104], .err 0⟩]⟩]
        [⟨0, "console", "out/console.log", [], true⟩] []).1.map ChannelSink.file =
      [[]]) ∧
    (List.map chunkOf (column 0 [⟨true, [⟨.ok [104], .err 0⟩]⟩])).flatten = [104] ∧
    ([] : List Byte) ≠ [104] := by
  decide

/-- C7 (amended): verbatim ordered output holds for every sink in every
run in which each of that sink's appends succeeds: its file afterwards is
exactly its previous content followed by the concatenation, in order
received, of the byte sequences its own reads returned — no reordering,
nothing from other channels, no framing added. (A failing append may
truncate the failing chunk and disables the sink, the carve-out the
counterexample forces.) -/
theorem c7_verbatim_ordered_output :
    ∀ (t : List PassInput) (sinks : List ChannelSink) (buf : List Byte)
      (j : Nat) (s : ChannelSink),
      sinks[j]? = some s → s.working = true →
      (∀ i ∈ column j t, i.write = .ok) →
      (runLoop t sinks buf).1[j]? =
        some { s with file := s.file ++ ((column j t).map chunkOf).flatten } := by
  intro t sinks buf j s hj hw hok
  rw [runLoop_get?, hj]
  exact congrArg some (sinkTrace_write_ok (column j t) s hw hok)

/-- Witness for C7 (amended): two passes deliver `[104, 105]` then `[33]`
to the sink; its file ends as their concatenation. -/
theorem c7_verbatim_ordered_output_witness :
    ((([⟨0, "console", "out/console.log", [], true⟩] : List ChannelSink)[0]? =
        some ⟨0, "console", "out/console.log", [], true⟩) ∧
      (∀ i ∈ column 0 [⟨true, [⟨.ok [104, 105], .ok⟩]⟩, ⟨true, [⟨.ok [33], .ok⟩]⟩],
        i.write = .ok)) ∧
    (runLoop [⟨true, [⟨.ok [104, 105], .ok⟩]⟩, ⟨true, [⟨.ok [33], .ok⟩]⟩]
        [⟨0, "console", "out/console.log", [], true⟩] []).1[0]? =
      some ⟨0, "console", "out/console.log", [104, 105, 33], true⟩ :=
  ⟨⟨rfl, by decide⟩,
    c7_verbatim_ordered_output
      [⟨true, [⟨.ok [104, 105], .ok⟩]⟩, ⟨true, [⟨.ok [33], .ok⟩]⟩]
      [⟨0, "console", "out/console.log", [], true⟩] [] 0
      ⟨0, "console", "out/console.log", [], true⟩ rfl rfl (by decide)⟩

/-- C8: fatal attach with no fallback. When the direct RTT attach fails
and no firmware image was supplied, startup resolves to the fatal abort
before the configuration is read or the sink registry runs: whatever the
rest of the environment would have answered, the result is the attach
error and the list of created output files is empty. -/
theorem c8_fatal_attach_no_fallback :
    ∀ (openOk : Bool) (symbolAddr : Option Nat) (pinnedOk : Nat → Bool)
      (configOk : Bool) (canCreate : String → Bool) (pool : ChannelPool)
      (channels : List Channel),
      runStartup false false openOk symbolAddr pinnedOk configOk canCreate pool
          channels =
        (.error .attachFailed, []) := by
  intro openOk symbolAddr pinnedOk configOk canCreate pool channels
  rfl

/-- C9: zero-read idempotence. A poll whose read successfully returns zero
bytes leaves the sink — file content, `working` flag, name — and even the
shared buffer unchanged, prints nothing, and the pass proceeds to the next
sink exactly as it would have. -/
theorem c9_zero_read_idempotent :
    ∀ (s : ChannelSink) (buf : List Byte) (w : WriteOutcome)
      (ss : List ChannelSink) (ins : List PollInput),
      pollSink s buf ⟨.ok [], w⟩ = (s, buf, []) ∧
        runPass (s :: ss) (⟨.ok [], w⟩ :: ins) buf =
          (s :: (runPass ss ins buf).1, (runPass ss ins buf).2.1,
            (runPass ss ins buf).2.2) := by
  intro s buf w ss ins
  have h1 : pollSink s buf ⟨.ok [], w⟩ = (s, buf, []) := by
    unfold pollSink
    cases hw : s.working <;> simp [hw]
  refine ⟨h1, ?_⟩
  simp [runPass, h1]

/-- C10: no stale-buffer leakage across sinks. A working sink's successful
poll appends exactly the bytes its read just deposited, whatever residue
the shared 1024-byte transfer buffer held from earlier reads (the appended
slice `&buffer[..bytes]` is the freshly deposited region); the final sink
list is independent of the buffer's initial content; and each sink's final
state — hence its file — is a function of its own channel's poll inputs
only. -/
theorem c10_no_stale_buffer_leakage :
    (∀ (s : ChannelSink) (buf bs : List Byte),
      s.working = true →
      (pollSink s buf ⟨.ok bs, .ok⟩).1 = { s with file := s.file ++ bs }) ∧
    (∀ (t : List PassInput) (sinks : List ChannelSink) (buf₁ buf₂ : List Byte),
      (runLoop t sinks buf₁).1 = (runLoop t sinks buf₂).1) ∧
    (∀ (t : List PassInput) (sinks : List ChannelSink) (buf : List Byte)
      (j : Nat) (s : ChannelSink),
      sinks[j]? = some s →
      (runLoop t sinks buf).1[j]? = some (sinkTrace s (column j t))) := by
  refine ⟨?_, runLoop_buf_irrel, ?_⟩
  · intro s buf bs hw
    rw [pollSink_fst]
    exact sinkStep_write_ok s ⟨.ok bs, .ok⟩ hw rfl
  · intro t sinks buf j s hj
    rw [runLoop_get?, hj]
    rfl

/-- Witness for C10: with stale bytes `[9, 9, 9]` in the buffer, a read
depositing `[1, 2]` appends exactly `[1, 2]`. -/
theorem c10_no_stale_buffer_leakage_witness :
    ((⟨0, "console", "out/console.log", [], true⟩ : ChannelSink).working = true) ∧
    (pollSink ⟨0, "console", "out/console.log", [], true⟩ [9, 9, 9]
        ⟨.ok [1, 2], .ok⟩).1 =
      ⟨0, "console", "out/console.log", [1, 2], true⟩ :=
  ⟨rfl,
    c10_no_stale_buffer_leakage.1 ⟨0, "console", "out/console.log", [], true⟩
      [9, 9, 9] [1, 2] rfl⟩

end RttFileLogger
